import Mathlib

/-!
Verification development for the text-to-texture rasterizer of
`src/src/font_manager.cpp` (class `FontManager`).

The C++ code is shallowly embedded as follows:
* byte planes (`uint8_t[]`) are total functions `Int → Nat`; `memset`/`memcpy`
  become explicit operations on such functions;
* `int32_t` arithmetic is `Int`; the `uint32_t` variables (`atlasX`, `atlasY`,
  `string_width`, and every mixed signed/unsigned expression the source builds
  from them) are reduced modulo `2^32` through `u32` exactly where the C
  conversion rules apply (FreeType 2.4/2.5, the era this file was written
  against, has `int` fields in `FT_Bitmap`, so `bitmap.rows`/`bitmap.width`
  are signed);
* the external collaborators (HarfBuzz shaping, FreeType rasterization, file
  loading) are oracles supplied in an environment record;
* fresh `new uint8_t[n]` storage is uninitialized, modelled by an arbitrary
  `garbage` function supplied by the environment.
-/

/-- `uint32_t` reduction: C's conversion of a signed value to `unsigned int`
and the wraparound of unsigned arithmetic. `Int.emod` with a positive modulus
always lands in `[0, 2^32)`. -/
def u32 (n : Int) : Int := n % 4294967296

/-- Doubling loop behind `rup2Nat`: starting from the power of two `p`,
double until `≥ n`; the fuel argument only forces structural termination. -/
def rup2Aux (n : Nat) : Nat → Nat → Nat
  | 0, p => p
  | fuel + 1, p => if n ≤ p then p else rup2Aux n fuel (2 * p)

/-- Modelled from the spec: the external math helper
`mathfu::RoundUpToPowerOf2(n)` — the smallest power of two that is `≥ n` and
`≥ 1` (the source file itself only calls it, `mathfu` is a collaborator). -/
def rup2Nat (n : Nat) : Nat := rup2Aux n n 1

/-- Modelled from the spec: `mathfu::RoundUpToPowerOf2` on the `int32_t`
values the source feeds it (all call sites pass nonnegative values). -/
def RoundUpToPowerOf2 (n : Int) : Int := (rup2Nat n.toNat : Int)

/-- Modelled from the spec: the five-field metrics value object of
`font_manager.h` (not part of `src/`): baseline, internal leading, ascender,
descender (≤ 0), external leading (≤ 0), in the constructor-argument order
used at `font_manager.cpp:113`. -/
structure FontMetrics where
  base_line : Int
  internal_leading : Int
  ascender : Int
  descender : Int
  external_leading : Int
deriving DecidableEq, Repr

/-- Modelled from the spec: `FontMetrics::total()` =
`internal_leading + ascender − descender − external_leading`. -/
def FontMetrics.total (m : FontMetrics) : Int :=
  m.internal_leading + m.ascender - m.descender - m.external_leading

/-- A single byte store `buf[i] = v`. -/
def writeByte (buf : Int → Nat) (i : Int) (v : Nat) : Int → Nat :=
  fun j => if j = i then v else buf j

/-- `memset(buf + off, 0, len)`. -/
def memsetZero (buf : Int → Nat) (off len : Int) : Int → Nat :=
  fun i => if off ≤ i ∧ i < off + len then 0 else buf i

/-- `memcpy(dst + off, src, len)` between two distinct allocations (the
reallocation branch copies from the old plane into the fresh one, so there is
no aliasing and the source snapshot semantics is exact). -/
def memcpyFresh (dst : Int → Nat) (off : Int) (src : Int → Nat) (len : Int) : Int → Nat :=
  fun i => if off ≤ i ∧ i < off + len then src (i - off) else dst i

/-- A literal in-place forward byte-by-byte copy of `len` bytes from offset
`src` to offset `dst` of the same allocation, each byte read from the buffer
as already modified by the preceding bytes.  This realizes the
`memcpy(&(*image)[width*Δi], image->get(), …)` call of the same-height branch
of `ExpandBuffer` (`font_manager.cpp:252`), whose regions overlap. -/
def memcpyForward (buf : Int → Nat) (dst src : Int) : Nat → (Int → Nat)
  | 0 => buf
  | k + 1 =>
    let b := memcpyForward buf dst src k
    writeByte b (dst + k) (b (src + k))

/-- `FontManager::ExpandBuffer` (`font_manager.cpp:215-262`).  `garbage` is
the uninitialized content of the fresh `new uint8_t[width * new_height]`
allocation of the reallocation branch. -/
def ExpandBuffer (width height : Int) (original_metrics new_metrics : FontMetrics)
    (image garbage : Int → Nat) : Bool × (Int → Nat) :=
  if original_metrics.total = new_metrics.total then (false, image)
  else
    let new_height := RoundUpToPowerOf2 new_metrics.total
    let internal_leading_change :=
      new_metrics.internal_leading - original_metrics.internal_leading
    if height ≠ new_height then
      let i1 := memcpyFresh garbage (width * internal_leading_change) image
        (width * original_metrics.total)
      let i2 := memsetZero i1 0 (width * internal_leading_change)
      let clear_offset := original_metrics.total + internal_leading_change
      let i3 := memsetZero i2 (width * clear_offset)
        (width * (new_height - clear_offset))
      (true, i3)
    else
      if 0 < internal_leading_change then
        let i1 := memcpyForward image (width * internal_leading_change) 0
          (width * original_metrics.total).toNat
        let i2 := memsetZero i1 0 (width * internal_leading_change)
        (false, i2)
      else (false, image)

/-- `rup2Aux` keeps its accumulator a power of two. -/
theorem rup2Aux_pow2 (n : Nat) : ∀ fuel i, ∃ j, rup2Aux n fuel (2 ^ i) = 2 ^ j := by
  intro fuel
  induction fuel with
  | zero => intro i; exact ⟨i, rfl⟩
  | succ f ih =>
    intro i
    by_cases h : n ≤ 2 ^ i
    · exact ⟨i, by simp [rup2Aux, h]⟩
    · obtain ⟨j, hj⟩ := ih (i + 1)
      refine ⟨j, ?_⟩
      simp only [rup2Aux, h, if_false]
      rw [← hj]
      congr 1
      ring

/-- With enough fuel, `rup2Aux` reaches `n`. -/
theorem rup2Aux_ge (n : Nat) : ∀ fuel p, n ≤ 2 ^ fuel * p → n ≤ rup2Aux n fuel p := by
  intro fuel
  induction fuel with
  | zero => intro p h; simpa [rup2Aux] using h
  | succ f ih =>
    intro p h
    by_cases hp : n ≤ p
    · simp [rup2Aux, hp]
    · simp only [rup2Aux, hp, if_false]
      refine ih (2 * p) ?_
      have e : 2 ^ f * (2 * p) = 2 ^ (f + 1) * p := by ring
      omega

/-- Minimality of `rup2Aux`: it never overshoots a power of two that already
dominates `n`. -/
theorem rup2Aux_min (n : Nat) : ∀ fuel i k, n ≤ 2 ^ k → i ≤ k →
    rup2Aux n fuel (2 ^ i) ≤ 2 ^ k := by
  intro fuel
  induction fuel with
  | zero => intro i k _ hik; exact Nat.pow_le_pow_right (by norm_num) hik
  | succ f ih =>
    intro i k hn hik
    by_cases h : n ≤ 2 ^ i
    · simpa [rup2Aux, h] using Nat.pow_le_pow_right (by norm_num) hik
    · have hlt : i < k := by
        rcases Nat.lt_or_ge i k with h1 | h1
        · exact h1
        · exact absurd (hn.trans (Nat.pow_le_pow_right (by norm_num) (by omega))) h
      simp only [rup2Aux, h, if_false]
      have : (2 : Nat) * 2 ^ i = 2 ^ (i + 1) := by ring
      rw [this]
      exact ih (i + 1) k hn hlt

theorem rup2Nat_ge (n : Nat) : n ≤ rup2Nat n := by
  unfold rup2Nat
  exact rup2Aux_ge n n 1 (by simpa using (Nat.lt_two_pow n).le)

theorem rup2Nat_pow2 (n : Nat) : ∃ j, rup2Nat n = 2 ^ j := by
  unfold rup2Nat
  simpa using rup2Aux_pow2 n n 0

theorem rup2Nat_pos (n : Nat) : 0 < rup2Nat n := by
  obtain ⟨j, hj⟩ := rup2Nat_pow2 n
  rw [hj]
  exact Nat.pos_pow_of_pos _ (by norm_num)

/-- `n ≤ RoundUpToPowerOf2 n`. -/
theorem le_RoundUpToPowerOf2 (n : Int) : n ≤ RoundUpToPowerOf2 n := by
  rcases le_or_lt n 0 with h | h
  · refine h.trans ?_
    have := rup2Nat_pos n.toNat
    unfold RoundUpToPowerOf2
    omega
  · have h1 : n.toNat ≤ rup2Nat n.toNat := rup2Nat_ge n.toNat
    unfold RoundUpToPowerOf2
    omega

/-- `RoundUpToPowerOf2` returns a power of two. -/
theorem RoundUpToPowerOf2_isPow2 (n : Int) : ∃ k : Nat, RoundUpToPowerOf2 n = 2 ^ k := by
  obtain ⟨j, hj⟩ := rup2Nat_pow2 n.toNat
  exact ⟨j, by unfold RoundUpToPowerOf2; exact_mod_cast congrArg (Nat.cast : Nat → Int) hj⟩

/-- Monotone bound used to size-bound the rounded height. -/
theorem RoundUpToPowerOf2_le_pow (n : Int) (k : Nat) (h : n ≤ ((2 ^ k : Nat) : Int)) :
    RoundUpToPowerOf2 n ≤ ((2 ^ k : Nat) : Int) := by
  have h1 : n.toNat ≤ 2 ^ k := Int.toNat_le.2 h
  have h2 : rup2Nat n.toNat ≤ 2 ^ k := by
    unfold rup2Nat
    simpa using rup2Aux_min n.toNat n.toNat 0 k h1 (Nat.zero_le k)
  unfold RoundUpToPowerOf2
  exact Nat.cast_le.2 h2

theorem u32_nonneg (n : Int) : 0 ≤ u32 n :=
  Int.emod_nonneg n (by norm_num)

theorem u32_lt (n : Int) : u32 n < 4294967296 :=
  Int.emod_lt_of_pos n (by norm_num)

/-- `u32` is the identity on in-range values. -/
theorem u32_eq_self (n : Int) (h0 : 0 ≤ n) (h1 : n < 4294967296) : u32 n = n :=
  Int.emod_eq_of_lt h0 h1

/-- `u32` of a small negative value wraps high. -/
theorem u32_neg_large (n : Int) (h0 : -4294967296 ≤ n) (h1 : n < 0) :
    u32 n = n + 4294967296 := by
  unfold u32
  omega

/-- A rasterized glyph as FreeType leaves it in the face's glyph slot
(`FT_GlyphSlot`): bitmap extent, bearing, and the 8-bit coverage plane.
`width`/`rows` are the (signed, in FreeType 2.4/2.5) `FT_Bitmap` fields. -/
structure GlyphBitmap where
  width : Int
  rows : Int
  bitmap_left : Int
  bitmap_top : Int
  buffer : Int → Nat

/-- One entry of the HarfBuzz glyph-info / glyph-position arrays: glyph index
in the face plus advances in 26.6 fixed-point units. -/
structure ShapedGlyph where
  codepoint : Nat
  x_advance : Int
  y_advance : Int

/-- Ghost record of one blit store: the destination row `atlasY + y + y_offset`
and column `atlasX + x + bitmap_left` (as exact integers, before the uint32
index arithmetic), the buffer height at the time of the store, and the actual
`uint32` flat index the source computes. -/
structure BlitWrite where
  row : Int
  col : Int
  hgt : Int
  idx : Int
deriving DecidableEq, Repr

/-- The wrapped result `GetTexture` caches: plane dimensions, string width,
final metrics, the grayscale plane handed to the GPU uploader, and the ghost
list of blit stores that produced it. -/
structure FontTexture where
  width : Int
  height : Int
  string_width : Int
  metrics : FontMetrics
  image : Int → Nat
  writes : List BlitWrite

/-- Manager state visible across `GetTexture` calls: the texture cache
(`map_textures_`), the bytes added to the shared HarfBuzz buffer since its
last `hb_buffer_clear_contents`, and a ghost counter of `hb_shape` calls. -/
structure MgrState where
  cache : List (List Nat × FontTexture)
  hbBuf : List Nat
  shapeCount : Nat

/-- Per-glyph loop state of `GetTexture`: current metrics, tracked texture
height, pen position, image plane, and the ghost blit log. -/
structure LoopState where
  metrics : FontMetrics
  height : Int
  atlasX : Int
  atlasY : Int
  image : Int → Nat
  writes : List BlitWrite

/-- External collaborators: face header metrics, the HarfBuzz shaper (a
function of the buffer contents), the FreeType rasterizer (pixel size and
glyph index to rendered bitmap, `none` = `FT_Load_Glyph` error), and the
uninitialized contents of fresh allocations. -/
structure FontEnv where
  faceAscender : Int
  unitsPerEM : Int
  shape : List Nat → List ShapedGlyph
  loadGlyph : Int → Nat → Option GlyphBitmap
  garbage : Int → Nat

/-- `kFreeTypeUnit` (font_manager.h): the 26.6 fixed-point divisor. -/
def kFreeTypeUnit : Int := 64

/-- `kGlyphPadding` (`font_manager.cpp:120`). -/
def kGlyphPadding : Int := 0

/-- Metrics refinement for one glyph (`font_manager.cpp:142-152`): raise
`internal_leading` to a running max, lower `external_leading` to a running
min, recompute the baseline. -/
def refineMetrics (m : FontMetrics) (g : GlyphBitmap) : FontMetrics :=
  let il := max m.internal_leading (g.bitmap_top - m.ascender)
  let el := min m.external_leading (g.bitmap_top - g.rows - m.descender)
  { m with internal_leading := il, external_leading := el,
           base_line := il + m.ascender }

/-- The metrics the loop holds after the conditional refinement at
`font_manager.cpp:140-161`. -/
def stepMetrics (s : LoopState) (g : GlyphBitmap) : FontMetrics :=
  if g.bitmap_top > s.metrics.ascender ∨
      g.bitmap_top - g.rows < s.metrics.descender then
    refineMetrics s.metrics g
  else s.metrics

/-- The pen position after the line-wrap test at `font_manager.cpp:163-166`.
`atlasX`/`atlasY` are `uint32_t` and `bitmap_left` may be negative, so both
sides of the comparison are uint32 values. -/
def stepPen (ysize width : Int) (s : LoopState) (g : GlyphBitmap) : Int × Int :=
  if u32 (s.atlasX + g.width + g.bitmap_left) ≥ u32 (width - kGlyphPadding) then
    (kGlyphPadding, u32 (s.atlasY + ysize + kGlyphPadding))
  else (s.atlasX, s.atlasY)

/-- The blit loop at `font_manager.cpp:177-185`: row-major over the glyph
bitmap, clipped to destination rows `≥ 0`, storing through the uint32 flat
index `(atlasY + y + y_offset) * width + atlasX + x + bitmap_left`.  Returns
the updated plane and the ghost log of stores (most recent first). -/
def blitGlyph (width hgt ax ay y_offset : Int) (g : GlyphBitmap)
    (img0 : Int → Nat) : (Int → Nat) × List BlitWrite :=
  (List.range g.rows.toNat).foldl (fun acc y =>
    (List.range g.width.toNat).foldl (fun acc2 x =>
      if 0 ≤ y_offset + Int.ofNat y then
        (writeByte acc2.1
           (u32 ((ay + Int.ofNat y + y_offset) * width + ax + Int.ofNat x +
             g.bitmap_left))
           (g.buffer (Int.ofNat y * g.width + Int.ofNat x)),
         ⟨ay + Int.ofNat y + y_offset, ax + Int.ofNat x + g.bitmap_left, hgt,
          u32 ((ay + Int.ofNat y + y_offset) * width + ax + Int.ofNat x +
            g.bitmap_left)⟩
           :: acc2.2)
      else acc2) acc) (img0, [])

/-- The tracked height after the conditional `ExpandBuffer` call
(`font_manager.cpp:154-159`): updated to the rounded-up new total exactly when
`ExpandBuffer` answers `true`. -/
def stepHeight (env : FontEnv) (width : Int) (s : LoopState) (g : GlyphBitmap) : Int :=
  if (ExpandBuffer width s.height s.metrics (stepMetrics s g) s.image env.garbage).1
  then RoundUpToPowerOf2 (stepMetrics s g).total
  else s.height

/-- One iteration of the per-glyph loop of `GetTexture`
(`font_manager.cpp:125-190`).  `none` models the two early `return nullptr`
paths (glyph load failure, texture overflow).  `ExpandBuffer` is invoked
unconditionally here: when the refinement did not change `total()` it returns
`(false, image)` immediately (its first guard), which is exactly the source's
behavior of not calling it. -/
def GlyphStepCore (env : FontEnv) (ysize width : Int) (s : LoopState)
    (sg : ShapedGlyph) (g : GlyphBitmap) : Option LoopState :=
  if u32 ((stepPen ysize width s g).2 + (stepMetrics s g).base_line + g.rows -
        g.bitmap_top) ≥
      u32 (stepHeight env width s g - kGlyphPadding) then
    none
  else
    some ⟨stepMetrics s g, stepHeight env width s g,
          u32 ((stepPen ysize width s g).1 + Int.tdiv sg.x_advance kFreeTypeUnit +
            kGlyphPadding),
          u32 ((stepPen ysize width s g).2 - (Int.tdiv sg.y_advance kFreeTypeUnit +
            kGlyphPadding)),
          (blitGlyph width (stepHeight env width s g) (stepPen ysize width s g).1
            (stepPen ysize width s g).2 ((stepMetrics s g).base_line - g.bitmap_top) g
            (ExpandBuffer width s.height s.metrics (stepMetrics s g) s.image
              env.garbage).2).1,
          (blitGlyph width (stepHeight env width s g) (stepPen ysize width s g).1
            (stepPen ysize width s g).2 ((stepMetrics s g).base_line - g.bitmap_top) g
            (ExpandBuffer width s.height s.metrics (stepMetrics s g) s.image
              env.garbage).2).2 ++ s.writes⟩

def GlyphStep (env : FontEnv) (ysize width : Int) (s : LoopState)
    (sg : ShapedGlyph) : Option LoopState :=
  Option.bind (env.loadGlyph ysize sg.codepoint) (GlyphStepCore env ysize width s sg)

/-- The initial metrics of `GetTexture` (`font_manager.cpp:112-113`):
`FontMetrics(b, 0, b, b - ysize, 0)` with `b = ysize * ascender / units_per_EM`. -/
def initialMetrics (ysize b : Int) : FontMetrics := ⟨b, 0, b, b - ysize, 0⟩

/-- The contents of the shared HarfBuzz buffer at the moment `hb_shape` runs
inside a `GetTexture` call for `text`: whatever was left in the buffer plus
the bytes `hb_buffer_add_utf8` just appended (`font_manager.cpp:89`). -/
def shapeInput (s : MgrState) (text : List Nat) : List Nat := s.hbBuf ++ text

/-- `FontManager::GetTexture` (`font_manager.cpp:67-213`). -/
def GetTexture (env : FontEnv) (s : MgrState) (text : List Nat) (ysize : Int) :
    Option FontTexture × MgrState :=
  match List.lookup text s.cache with
  | some tex => (some tex, s)
  | none =>
    let buf := shapeInput s text
    let glyphs := env.shape buf
    let string_width :=
      Int.tdiv (glyphs.foldl (fun a g => u32 (a + g.x_advance)) 0) kFreeTypeUnit
    let width := RoundUpToPowerOf2 string_width
    let height := RoundUpToPowerOf2 ysize
    let b := Int.tdiv (ysize * env.faceAscender) env.unitsPerEM
    let initial_metrics := initialMetrics ysize b
    let s0 : LoopState := ⟨initial_metrics, height, kGlyphPadding, kGlyphPadding,
                           fun _ => 0, []⟩
    match glyphs.foldlM (GlyphStep env ysize width) s0 with
    | none =>
      (none, { s with hbBuf := buf, shapeCount := s.shapeCount + 1 })
    | some fin =>
      let tex : FontTexture :=
        ⟨width, fin.height, string_width, fin.metrics, fin.image, fin.writes⟩
      (some tex, ⟨(text, tex) :: s.cache, [], s.shapeCount + 1⟩)

/-- The per-manager font handle (`font_manager.h` members `font_data_`,
`face_`, `harfbuzz_font_`, `face_initialized_`); native handles are opaque
ids. -/
structure FontHandle where
  font_data : List Nat
  face : Option Nat
  harfbuzz_font : Option Nat
  face_initialized : Bool
deriving DecidableEq, Repr

/-- External collaborators of `Open`: the file loader, `FT_New_Memory_Face`
(applied to the loaded bytes), and `hb_ft_font_create` (applied to the face).
`none` models the respective failure. -/
structure OpenEnv where
  loadFile : Option (List Nat)
  newMemoryFace : List Nat → Option Nat
  hbFtFontCreate : Nat → Option Nat

/-- Stage 3 of `Open` (`font_manager.cpp:286-298`): pair a HarfBuzz font to
the face; on failure clear the bytes and destroy the face. -/
def OpenPair (env : OpenEnv) (s : FontHandle) (bytes : List Nat) (f : Nat) :
    Bool × FontHandle :=
  match env.hbFtFontCreate f with
  | none => (false, ⟨[], none, s.harfbuzz_font, s.face_initialized⟩)
  | some hf => (true, ⟨bytes, some f, some hf, true⟩)

/-- Stage 2 of `Open` (`font_manager.cpp:275-283`): create the face from the
loaded bytes; on failure return with the bytes still held in `font_data_`. -/
def OpenFace (env : OpenEnv) (s : FontHandle) (bytes : List Nat) :
    Bool × FontHandle :=
  match env.newMemoryFace bytes with
  | none => (false, ⟨bytes, s.face, s.harfbuzz_font, s.face_initialized⟩)
  | some f => OpenPair env s bytes f

/-- `FontManager::Open` (`font_manager.cpp:264-299`).  Note that the
face-creation failure path returns without clearing `font_data_`. -/
def Open (env : OpenEnv) (s : FontHandle) : Bool × FontHandle :=
  match env.loadFile with
  | none => (false, s)
  | some bytes => OpenFace env s bytes

/-- Row-major index bound: a pixel of a row strictly below row `r` lies
strictly below the start of row `r`. -/
theorem rowcol_lt (w y x r : Int) (hw : 0 < w) (hx : x < w) (hy : y < r) :
    w * y + x < w * r := by
  have h1 : w * (y + 1) ≤ w * r := mul_le_mul_of_nonneg_left (by omega) hw.le
  have h2 : w * (y + 1) = w * y + w := by ring
  omega

/-- Row-major index bound: a pixel of a row at or beyond row `r` lies at or
beyond the start of row `r`. -/
theorem rowcol_ge (w y x r : Int) (hw : 0 ≤ w) (hx : 0 ≤ x) (hy : r ≤ y) :
    w * r ≤ w * y + x := by
  have h1 : w * r ≤ w * y := mul_le_mul_of_nonneg_left hy hw
  omega

/-- C1: in the reallocation branch of `ExpandBuffer` (`total` changed and the
rounded-up new total differs from the tracked height) the call returns `true`
and produces a plane in which row `y + Δi` holds the old row `y` for every
`y ∈ [0, old_total)`, and rows `[0, Δi)` and `[Δi + old_total, new_height)`
are zero — so the whole `width × new_height` plane is initialized; the
caller's height update formula then yields `RoundUpToPowerOf2 new_total`. -/
theorem ExpandBuffer_realloc (width height : Int) (om nm : FontMetrics)
    (image garbage : Int → Nat)
    (hw : 0 < width)
    (htot : om.total ≠ nm.total)
    (hh : height ≠ RoundUpToPowerOf2 nm.total)
    (hot : 0 ≤ om.total) :
    (ExpandBuffer width height om nm image garbage).1 = true ∧
    (∀ x y : Int, 0 ≤ x → x < width → 0 ≤ y → y < om.total →
      (ExpandBuffer width height om nm image garbage).2
          (width * (y + (nm.internal_leading - om.internal_leading)) + x)
        = image (width * y + x)) ∧
    (∀ x y : Int, 0 ≤ x → x < width →
      ((0 ≤ y ∧ y < nm.internal_leading - om.internal_leading) ∨
        (om.total + (nm.internal_leading - om.internal_leading) ≤ y ∧
          y < RoundUpToPowerOf2 nm.total)) →
      (ExpandBuffer width height om nm image garbage).2 (width * y + x) = 0) ∧
    (if (ExpandBuffer width height om nm image garbage).1
        then RoundUpToPowerOf2 nm.total else height) = RoundUpToPowerOf2 nm.total := by
  have hEB : ExpandBuffer width height om nm image garbage =
      (true,
        memsetZero
          (memsetZero
            (memcpyFresh garbage (width * (nm.internal_leading - om.internal_leading))
              image (width * om.total))
            0 (width * (nm.internal_leading - om.internal_leading)))
          (width * (om.total + (nm.internal_leading - om.internal_leading)))
          (width * (RoundUpToPowerOf2 nm.total -
            (om.total + (nm.internal_leading - om.internal_leading))))) := by
    simp only [ExpandBuffer, if_neg htot, if_pos hh]
  set di := nm.internal_leading - om.internal_leading with hdi_def
  set co := om.total + di with hco_def
  set nh := RoundUpToPowerOf2 nm.total with hnh_def
  refine ⟨by rw [hEB], ?_, ?_, by rw [hEB]; simp⟩
  · intro x y hx0 hxw hy0 hyt
    rw [hEB]
    have hlt : width * (y + di) + x < width * co :=
      rowcol_lt width (y + di) x co hw hxw (by omega)
    have hge : width * di ≤ width * (y + di) + x :=
      rowcol_ge width (y + di) x di hw.le hx0 (by omega)
    have hsplit : width * di + width * om.total = width * co := by
      rw [hco_def]; ring
    simp only [memsetZero, memcpyFresh]
    rw [if_neg (by omega), if_neg (by omega), if_pos (by omega)]
    congr 1
    ring
  · intro x y hx0 hxw hy
    rw [hEB]
    rcases hy with ⟨hy0, hyd⟩ | ⟨hyc, hyn⟩
    · have hlt : width * y + x < width * di := rowcol_lt width y x di hw hxw hyd
      have hge : (0:Int) ≤ width * y + x := by
        have := rowcol_ge width y x 0 hw.le hx0 hy0
        omega
      have hltc : width * y + x < width * co :=
        rowcol_lt width y x co hw hxw (by omega)
      simp only [memsetZero]
      rw [if_neg (by omega), if_pos (by omega)]
    · have hge : width * co ≤ width * y + x :=
        rowcol_ge width y x co hw.le hx0 hyc
      have hlt : width * y + x < width * nh :=
        rowcol_lt width y x nh hw hxw hyn
      have hsplit : width * co + width * (nh - co) = width * nh := by ring
      simp only [memsetZero]
      rw [if_pos (by omega)]

/-- Witness for `ExpandBuffer_realloc` at a concrete reallocation instance. -/
theorem ExpandBuffer_realloc_witness :
    (0:Int) < 2 ∧
    (⟨3, 0, 3, -1, 0⟩ : FontMetrics).total ≠ (⟨4, 1, 3, -1, 0⟩ : FontMetrics).total ∧
    (4:Int) ≠ RoundUpToPowerOf2 (⟨4, 1, 3, -1, 0⟩ : FontMetrics).total ∧
    (ExpandBuffer 2 4 ⟨3, 0, 3, -1, 0⟩ ⟨4, 1, 3, -1, 0⟩ (fun _ => 7) (fun _ => 9)).1 = true :=
  ⟨by decide, by decide, by decide,
    (ExpandBuffer_realloc 2 4 ⟨3, 0, 3, -1, 0⟩ ⟨4, 1, 3, -1, 0⟩ (fun _ => 7) (fun _ => 9)
      (by decide) (by decide) (by decide) (by decide)).1⟩

/-- C2: the same-height branch of `ExpandBuffer` shifts the plane with
`memcpy` whose destination (`offset width·Δi`) overlaps its source (offset 0,
length `width·old_total`) — undefined behavior in C; under the literal forward
byte copy the shift does **not** have memmove semantics.  Concretely, with
`width = 1`, `height = 8`, old metrics `(4,1,3,-1,0)` (total 5), new metrics
`(5,2,3,-1,0)` (total 6, `Δi = 1`) and plane bytes `i ↦ i`, the branch is
taken (returns `false`), the regions `[1,6)` and `[0,5)` overlap, and the
resulting plane holds `0` at row 2 where the claimed memmove shift requires
the old row-1 byte `1`. -/
theorem ExpandBuffer_overlap_divergence :
    (ExpandBuffer 1 8 ⟨4, 1, 3, -1, 0⟩ ⟨5, 2, 3, -1, 0⟩ (fun i => i.toNat) (fun _ => 0)).1
      = false ∧
    ((1:Int) < 0 + 5 ∧ (0:Int) < 1 + 5) ∧
    (ExpandBuffer 1 8 ⟨4, 1, 3, -1, 0⟩ ⟨5, 2, 3, -1, 0⟩ (fun i => i.toNat) (fun _ => 0)).2 2
      = 0 ∧
    (fun i : Int => i.toNat) 1 = 1 ∧
    (ExpandBuffer 1 8 ⟨4, 1, 3, -1, 0⟩ ⟨5, 2, 3, -1, 0⟩ (fun i => i.toNat) (fun _ => 0)).2 2
      ≠ (fun i : Int => i.toNat) 1 := by
  refine ⟨by decide, by decide, by decide, by decide, by decide⟩

/-- The conditional refinement step never lowers `internal_leading`, never
raises `external_leading`, keeps `ascender`, and re-establishes
`base_line = internal_leading + ascender`. -/
theorem stepMetrics_mono (s : LoopState) (g : GlyphBitmap) :
    s.metrics.internal_leading ≤ (stepMetrics s g).internal_leading ∧
    (stepMetrics s g).external_leading ≤ s.metrics.external_leading ∧
    (stepMetrics s g).ascender = s.metrics.ascender ∧
    (s.metrics.base_line = s.metrics.internal_leading + s.metrics.ascender →
      (stepMetrics s g).base_line =
        (stepMetrics s g).internal_leading + (stepMetrics s g).ascender) := by
  unfold stepMetrics refineMetrics
  split
  · exact ⟨le_max_left _ _, min_le_left _ _, rfl, fun _ => rfl⟩
  · exact ⟨le_refl _, le_refl _, rfl, fun h => h⟩

/-- C3: across one iteration of the per-glyph loop the tracked
`internal_leading` never decreases, `external_leading` never increases, and
(given it held before) `base_line = internal_leading + ascender` keeps
holding; the initial metrics of `GetTexture` satisfy that baseline equation.
(`Option.getD` returns the unchanged state on the loop's early-exit paths.) -/
theorem GlyphStep_metrics_monotone (env : FontEnv) (ysize width : Int)
    (s : LoopState) (sg : ShapedGlyph)
    (hb : s.metrics.base_line = s.metrics.internal_leading + s.metrics.ascender) :
    s.metrics.internal_leading ≤
      ((GlyphStep env ysize width s sg).getD s).metrics.internal_leading ∧
    ((GlyphStep env ysize width s sg).getD s).metrics.external_leading ≤
      s.metrics.external_leading ∧
    ((GlyphStep env ysize width s sg).getD s).metrics.base_line =
      ((GlyphStep env ysize width s sg).getD s).metrics.internal_leading +
        ((GlyphStep env ysize width s sg).getD s).metrics.ascender ∧
    (∀ ys b : Int, (initialMetrics ys b).base_line =
      (initialMetrics ys b).internal_leading + (initialMetrics ys b).ascender) := by
  have hinit : ∀ ys b : Int, (initialMetrics ys b).base_line =
      (initialMetrics ys b).internal_leading + (initialMetrics ys b).ascender := by
    intro ys b
    simp [initialMetrics]
  unfold GlyphStep
  cases hload : env.loadGlyph ysize sg.codepoint with
  | none => exact ⟨le_refl _, le_refl _, hb, hinit⟩
  | some g =>
    obtain ⟨h1, h2, h3, h4⟩ := stepMetrics_mono s g
    simp only [Option.some_bind]
    unfold GlyphStepCore
    by_cases hc : u32 ((stepPen ysize width s g).2 + (stepMetrics s g).base_line +
        g.rows - g.bitmap_top) ≥
        u32 (stepHeight env width s g - kGlyphPadding)
    · simp only [hc, if_pos, ite_true]
      exact ⟨le_refl _, le_refl _, hb, hinit⟩
    · simp only [hc, ite_false]
      exact ⟨h1, h2, h4 hb, hinit⟩

/-- Witness for `GlyphStep_metrics_monotone` at a concrete loop state and
glyph. -/
theorem GlyphStep_metrics_monotone_witness :
    (⟨⟨3, 0, 3, -1, 0⟩, 4, 0, 0, fun _ => 0, []⟩ : LoopState).metrics.base_line =
      (⟨⟨3, 0, 3, -1, 0⟩, 4, 0, 0, fun _ => 0, []⟩ : LoopState).metrics.internal_leading +
      (⟨⟨3, 0, 3, -1, 0⟩, 4, 0, 0, fun _ => 0, []⟩ : LoopState).metrics.ascender ∧
    (⟨⟨3, 0, 3, -1, 0⟩, 4, 0, 0, fun _ => 0, []⟩ : LoopState).metrics.internal_leading ≤
      ((GlyphStep ⟨800, 1000, fun _ => [⟨1, 256, 0⟩],
          fun _ _ => some ⟨2, 1, -1, 3, fun _ => 255⟩, fun _ => 0⟩ 4 4
          ⟨⟨3, 0, 3, -1, 0⟩, 4, 0, 0, fun _ => 0, []⟩ ⟨1, 256, 0⟩).getD
        ⟨⟨3, 0, 3, -1, 0⟩, 4, 0, 0, fun _ => 0, []⟩).metrics.internal_leading :=
  ⟨by decide,
    (GlyphStep_metrics_monotone ⟨800, 1000, fun _ => [⟨1, 256, 0⟩],
        fun _ _ => some ⟨2, 1, -1, 3, fun _ => 255⟩, fun _ => 0⟩ 4 4
        ⟨⟨3, 0, 3, -1, 0⟩, 4, 0, 0, fun _ => 0, []⟩ ⟨1, 256, 0⟩ (by decide)).1⟩

/-- Cache-hit evaluation of `GetTexture` (`font_manager.cpp:69-71`). -/
theorem GetTexture_hit (env : FontEnv) (s : MgrState) (text : List Nat) (ysize : Int)
    (tex : FontTexture) (h : List.lookup text s.cache = some tex) :
    GetTexture env s text ysize = (some tex, s) := by
  unfold GetTexture
  rw [h]

/-- Exhaustive behavior of one `GetTexture` call: cache hit, miss-and-fail, or
miss-and-succeed (which pushes the new entry and clears the shaping buffer). -/
theorem GetTexture_cases (env : FontEnv) (s : MgrState) (text : List Nat) (ysize : Int) :
    (∃ tex, List.lookup text s.cache = some tex ∧
      GetTexture env s text ysize = (some tex, s)) ∨
    ((GetTexture env s text ysize).1 = none ∧
      (GetTexture env s text ysize).2.cache = s.cache ∧
      (GetTexture env s text ysize).2.hbBuf = shapeInput s text) ∨
    (∃ tex, GetTexture env s text ysize =
      (some tex, ⟨(text, tex) :: s.cache, [], s.shapeCount + 1⟩)) := by
  cases hl : List.lookup text s.cache with
  | some tex =>
    exact Or.inl ⟨tex, rfl, GetTexture_hit env s text ysize tex hl⟩
  | none =>
    right
    unfold GetTexture
    simp only [hl]
    split
    · left
      simp
    · right
      exact ⟨_, rfl⟩

/-- Looking up the key just pushed at the head of the cache. -/
theorem lookup_cons_self (text : List Nat) (tex : FontTexture)
    (rest : List (List Nat × FontTexture)) :
    List.lookup text ((text, tex) :: rest) = some tex := by
  simp [List.lookup]

/-- A deterministic environment whose shaper returns no glyphs: every fresh
`GetTexture` call succeeds trivially. -/
def envEmptyShape : FontEnv := ⟨800, 1000, fun _ => [], fun _ _ => none, fun _ => 0⟩

/-- A deterministic environment with one shaped glyph (advance 256 = 4 px)
whose bitmap is 2×1 with `bitmap_left = -1`, `bitmap_top = 3`. -/
def envOneGlyph : FontEnv :=
  ⟨800, 1000, fun _ => [⟨1, 256, 0⟩], fun _ _ => some ⟨2, 1, -1, 3, fun _ => 255⟩,
    fun _ => 0⟩

/-- A deterministic environment with one shaped glyph whose rasterization
fails (`FT_Load_Glyph` error). -/
def envGlyphFail : FontEnv :=
  ⟨800, 1000, fun _ => [⟨1, 256, 0⟩], fun _ _ => none, fun _ => 0⟩

/-- The manager state right after `Open`: empty cache, empty shaping buffer. -/
def mgr0 : MgrState := ⟨[], [], 0⟩

/-- C6: if a `GetTexture` call succeeds, an immediately repeated call with the
same text and size returns the same texture and the same state — in
particular it performs no shaping work (the shape counter is unchanged),
because the cached entry is returned before the face, the shaping buffer or
the image plane are touched. -/
theorem GetTexture_cache_identity (env : FontEnv) (s : MgrState) (text : List Nat)
    (ysize : Int) (h : (GetTexture env s text ysize).1.isSome = true) :
    GetTexture env (GetTexture env s text ysize).2 text ysize =
      GetTexture env s text ysize ∧
    (GetTexture env (GetTexture env s text ysize).2 text ysize).2.shapeCount =
      (GetTexture env s text ysize).2.shapeCount := by
  have heq : GetTexture env (GetTexture env s text ysize).2 text ysize =
      GetTexture env s text ysize := by
    rcases GetTexture_cases env s text ysize with ⟨tex, _, hcall⟩ | ⟨hn, _, _⟩ | ⟨tex, hcall⟩
    · rw [hcall]
      exact hcall
    · rw [hn] at h
      simp at h
    · rw [hcall]
      exact GetTexture_hit env _ text ysize tex (lookup_cons_self text tex s.cache)
  exact ⟨heq, by rw [heq]⟩

/-- Witness for `GetTexture_cache_identity`: a concrete successful call
followed by its repeat. -/
theorem GetTexture_cache_identity_witness :
    (GetTexture envEmptyShape mgr0 [] 4).1.isSome = true ∧
    GetTexture envEmptyShape (GetTexture envEmptyShape mgr0 [] 4).2 [] 4 =
      GetTexture envEmptyShape mgr0 [] 4 :=
  ⟨by decide, (GetTexture_cache_identity envEmptyShape mgr0 [] 4 (by decide)).1⟩

/-- C7: a failing `GetTexture` call (glyph-load error or atlas overflow)
returns no texture and leaves the cache exactly as it was — in particular the
lookup result for the failing string is unchanged, so a retry re-runs the
pipeline. -/
theorem GetTexture_failure_preserves_cache (env : FontEnv) (s : MgrState)
    (text : List Nat) (ysize : Int) (h : (GetTexture env s text ysize).1 = none) :
    (GetTexture env s text ysize).2.cache = s.cache ∧
    List.lookup text (GetTexture env s text ysize).2.cache =
      List.lookup text s.cache := by
  rcases GetTexture_cases env s text ysize with ⟨tex, _, hcall⟩ | ⟨_, hc, _⟩ | ⟨tex, hcall⟩
  · rw [hcall] at h
    simp at h
  · exact ⟨hc, by rw [hc]⟩
  · rw [hcall] at h
    simp at h

/-- Witness for `GetTexture_failure_preserves_cache` at a concrete failing
call. -/
theorem GetTexture_failure_preserves_cache_witness :
    (GetTexture envGlyphFail mgr0 [65] 4).1 = none ∧
    (GetTexture envGlyphFail mgr0 [65] 4).2.cache = mgr0.cache :=
  ⟨rfl, (GetTexture_failure_preserves_cache envGlyphFail mgr0 [65] 4 rfl).1⟩

/-- C9 (amended): provided the shared shaping buffer is empty when the call
starts — which is the case initially and after every *successful* call — the
buffer contents at shaping time are exactly the input text, and a successful
call leaves the buffer empty again. -/
theorem GetTexture_shape_input_clean (env : FontEnv) (s : MgrState)
    (text : List Nat) (ysize : Int) (h0 : s.hbBuf = [])
    (h : (GetTexture env s text ysize).1.isSome = true) :
    shapeInput s text = text ∧ (GetTexture env s text ysize).2.hbBuf = [] := by
  refine ⟨by simp [shapeInput, h0], ?_⟩
  rcases GetTexture_cases env s text ysize with ⟨tex, _, hcall⟩ | ⟨hn, _, _⟩ | ⟨tex, hcall⟩
  · rw [hcall]
    exact h0
  · rw [hn] at h
    simp at h
  · rw [hcall]

/-- Witness for `GetTexture_shape_input_clean` at a concrete successful
call. -/
theorem GetTexture_shape_input_clean_witness :
    mgr0.hbBuf = [] ∧ shapeInput mgr0 [] = [] :=
  ⟨rfl, (GetTexture_shape_input_clean envEmptyShape mgr0 [] 4 rfl (by decide)).1⟩

/-- C9 counterexample: a failing `GetTexture` call does not clear the shared
shaping buffer (`hb_buffer_clear_contents` only runs on the success path,
`font_manager.cpp:207`), so at the next call the buffer holds the stale bytes
of the failed text and the shape input is not the new text alone. -/
theorem GetTexture_stale_shaping_buffer :
    (GetTexture envGlyphFail mgr0 [65] 4).1.isSome = false ∧
    (GetTexture envGlyphFail mgr0 [65] 4).2.hbBuf = [65] ∧
    shapeInput (GetTexture envGlyphFail mgr0 [65] 4).2 [66] ≠ [66] := by
  exact ⟨by decide, by decide, by decide⟩

/-- C10: the cache is keyed on the text alone — after a successful call at
size `y1`, a call with the same text and a different positive size `y2`
returns the very same cached texture (rasterized for `y1`) and performs no
shaping or rasterization (the state, including the shape counter, is
unchanged). -/
theorem GetTexture_cache_ignores_size (env : FontEnv) (s : MgrState)
    (text : List Nat) (y1 y2 : Int) (hy1 : 0 < y1) (hy2 : 0 < y2) (hne : y1 ≠ y2)
    (h : (GetTexture env s text y1).1.isSome = true) :
    GetTexture env (GetTexture env s text y1).2 text y2 =
      GetTexture env s text y1 := by
  rcases GetTexture_cases env s text y1 with ⟨tex, hl, hcall⟩ | ⟨hn, _, _⟩ | ⟨tex, hcall⟩
  · rw [hcall]
    exact GetTexture_hit env s text y2 tex hl
  · rw [hn] at h
    simp at h
  · rw [hcall]
    exact GetTexture_hit env _ text y2 tex (lookup_cons_self text tex s.cache)

/-- Witness for `GetTexture_cache_ignores_size`: concrete sizes 4 and 8. -/
theorem GetTexture_cache_ignores_size_witness :
    (0:Int) < 4 ∧ (0:Int) < 8 ∧ (4:Int) ≠ 8 ∧
    (GetTexture envEmptyShape mgr0 [] 4).1.isSome = true ∧
    GetTexture envEmptyShape (GetTexture envEmptyShape mgr0 [] 4).2 [] 8 =
      GetTexture envEmptyShape mgr0 [] 4 :=
  ⟨by decide, by decide, by decide, by decide,
    GetTexture_cache_ignores_size envEmptyShape mgr0 [] 4 8 (by decide) (by decide)
      (by decide) (by decide)⟩

/-- The dimension contract of a returned texture: width and height are powers
of two, the string width fits the width (which is exactly its round-up), and
the final metrics' total fits the height. -/
def TexOK (t : FontTexture) : Prop :=
  (∃ k : Nat, t.width = 2 ^ k) ∧ (∃ k : Nat, t.height = 2 ^ k) ∧
  t.string_width ≤ t.width ∧ t.metrics.total ≤ t.height ∧
  t.width = RoundUpToPowerOf2 t.string_width

/-- A successful association-list lookup comes from a member entry. -/
theorem lookup_mem (l : List (List Nat × FontTexture)) (a : List Nat)
    (t : FontTexture) (h : List.lookup a l = some t) : ∃ p ∈ l, p.2 = t := by
  induction l with
  | nil => simp [List.lookup] at h
  | cons p rest ih =>
    rw [List.lookup] at h
    by_cases hk : a == p.1
    · refine ⟨p, List.mem_cons_self p rest, ?_⟩
      rw [hk] at h
      cases h
      rfl
    · rw [Bool.of_not_eq_true hk] at h
      obtain ⟨q, hq, hq2⟩ := ih h
      exact ⟨q, List.mem_cons_of_mem p hq, hq2⟩

/-- When `ExpandBuffer` answers `false`, either nothing changed or the
tracked height already equals the rounded-up new total. -/
theorem ExpandBuffer_fst_false (width height : Int) (om nm : FontMetrics)
    (image garbage : Int → Nat)
    (h : (ExpandBuffer width height om nm image garbage).1 = false) :
    om.total = nm.total ∨ height = RoundUpToPowerOf2 nm.total := by
  by_cases h1 : om.total = nm.total
  · exact Or.inl h1
  · right
    by_cases h2 : height = RoundUpToPowerOf2 nm.total
    · exact h2
    · exfalso
      have : (ExpandBuffer width height om nm image garbage).1 = true := by
        unfold ExpandBuffer
        rw [if_neg h1, if_pos h2]
      rw [this] at h
      cases h

/-- One loop iteration preserves `total ≤ height` and keeps the height a
power of two. -/
theorem GlyphStep_height_inv (env : FontEnv) (ysize width : Int) (s : LoopState)
    (sg : ShapedGlyph) (s' : LoopState)
    (hstep : GlyphStep env ysize width s sg = some s')
    (h1 : s.metrics.total ≤ s.height) (h2 : ∃ k : Nat, s.height = 2 ^ k) :
    s'.metrics.total ≤ s'.height ∧ ∃ k : Nat, s'.height = 2 ^ k := by
  unfold GlyphStep at hstep
  cases hload : env.loadGlyph ysize sg.codepoint with
  | none =>
    rw [hload] at hstep
    simp at hstep
  | some g =>
    rw [hload] at hstep
    simp only [Option.some_bind] at hstep
    unfold GlyphStepCore at hstep
    by_cases hc : u32 ((stepPen ysize width s g).2 + (stepMetrics s g).base_line +
        g.rows - g.bitmap_top) ≥
        u32 (stepHeight env width s g - kGlyphPadding)
    · rw [if_pos hc] at hstep
      cases hstep
    · rw [if_neg hc] at hstep
      cases hstep
      refine ⟨?_, ?_⟩
      · show (stepMetrics s g).total ≤ stepHeight env width s g
        unfold stepHeight
        by_cases hpr : (ExpandBuffer width s.height s.metrics (stepMetrics s g) s.image
            env.garbage).1 = true
        · rw [if_pos hpr]
          exact le_RoundUpToPowerOf2 _
        · rw [if_neg hpr]
          have hfalse : (ExpandBuffer width s.height s.metrics (stepMetrics s g) s.image
              env.garbage).1 = false := by simpa using hpr
          rcases ExpandBuffer_fst_false width s.height s.metrics (stepMetrics s g)
              s.image env.garbage hfalse with he | he
          · rw [← he]; exact h1
          · rw [he]; exact le_RoundUpToPowerOf2 _
      · show ∃ k : Nat, stepHeight env width s g = 2 ^ k
        unfold stepHeight
        by_cases hpr : (ExpandBuffer width s.height s.metrics (stepMetrics s g) s.image
            env.garbage).1 = true
        · rw [if_pos hpr]
          exact RoundUpToPowerOf2_isPow2 _
        · rw [if_neg hpr]
          exact h2

/-- The loop invariant of `GetTexture`'s per-glyph fold. -/
theorem foldlM_height_inv (env : FontEnv) (ysize width : Int) :
    ∀ (gl : List ShapedGlyph) (s s' : LoopState),
      List.foldlM (GlyphStep env ysize width) s gl = some s' →
      s.metrics.total ≤ s.height → (∃ k : Nat, s.height = 2 ^ k) →
      s'.metrics.total ≤ s'.height ∧ ∃ k : Nat, s'.height = 2 ^ k := by
  intro gl
  induction gl with
  | nil =>
    intro s s' h h1 h2
    simp only [List.foldlM_nil] at h
    cases h
    exact ⟨h1, h2⟩
  | cons g gs ih =>
    intro s s' h h1 h2
    rw [List.foldlM_cons] at h
    cases hg : GlyphStep env ysize width s g with
    | none =>
      rw [hg] at h
      cases h
    | some s1 =>
      rw [hg] at h
      simp only [Option.bind_eq_bind, Option.some_bind] at h
      obtain ⟨k1, k2⟩ := GlyphStep_height_inv env ysize width s g s1 hg h1 h2
      exact ih s1 s' h k1 k2

/-- C4: every texture a `GetTexture` call hands back satisfies the dimension
contract `TexOK` — width and height are powers of two, `string_width ≤ width`
(indeed `width = RoundUpToPowerOf2 string_width`), and the final metrics'
`total ≤ height` — provided every texture already in the cache satisfies it
(cached entries are exactly the results of earlier successful calls). -/
theorem GetTexture_dims (env : FontEnv) (s : MgrState) (text : List Nat)
    (ysize : Int) (hc : ∀ p ∈ s.cache, TexOK p.2) :
    ∀ tex ∈ (GetTexture env s text ysize).1, TexOK tex := by
  intro tex htex
  unfold GetTexture at htex
  cases hl : List.lookup text s.cache with
  | some tex0 =>
    rw [hl] at htex
    simp only [Option.mem_def, Option.some_inj] at htex
    obtain ⟨p, hp, hp2⟩ := lookup_mem s.cache text tex0 hl
    rw [← htex, ← hp2]
    exact hc p hp
  | none =>
    rw [hl] at htex
    dsimp only at htex
    split at htex
    · simp at htex
    · next fin hf =>
      simp only [Option.mem_def, Option.some_inj] at htex
      have hinit_total : (initialMetrics ysize
          (Int.tdiv (ysize * env.faceAscender) env.unitsPerEM)).total = ysize := by
        simp only [initialMetrics, FontMetrics.total]
        ring
      have hfin := foldlM_height_inv env ysize _ (env.shape (shapeInput s text)) _ fin hf
        (by rw [hinit_total]; exact le_RoundUpToPowerOf2 ysize)
        (RoundUpToPowerOf2_isPow2 ysize)
      rw [← htex]
      exact ⟨RoundUpToPowerOf2_isPow2 _, hfin.2, le_RoundUpToPowerOf2 _, hfin.1, rfl⟩

/-- Witness for `GetTexture_dims` at a concrete successful call (the cache
hypothesis holds vacuously for the empty cache). -/
theorem GetTexture_dims_witness :
    (∀ p ∈ mgr0.cache, TexOK p.2) ∧
    ∀ tex ∈ (GetTexture envOneGlyph mgr0 [65] 4).1, TexOK tex :=
  ⟨by simp [mgr0], GetTexture_dims envOneGlyph mgr0 [65] 4 (by simp [mgr0])⟩

theorem RoundUpToPowerOf2_pos (n : Int) : 0 < RoundUpToPowerOf2 n := by
  unfold RoundUpToPowerOf2
  exact_mod_cast rup2Nat_pos n.toNat

/-- Fold preservation of a predicate over the ghost write log. -/
theorem foldl_writes_pres {α : Type} (P : BlitWrite → Prop)
    (f : ((Int → Nat) × List BlitWrite) → α → ((Int → Nat) × List BlitWrite)) :
    ∀ (l : List α),
      (∀ acc a, a ∈ l → (∀ w ∈ acc.2, P w) → ∀ w ∈ (f acc a).2, P w) →
      ∀ acc, (∀ w ∈ acc.2, P w) → ∀ w ∈ (l.foldl f acc).2, P w := by
  intro l
  induction l with
  | nil =>
    intro _ acc h
    simpa using h
  | cons a as ih =>
    intro hf acc h
    rw [List.foldl_cons]
    exact ih (fun acc' a' ha' => hf acc' a' (List.mem_cons_of_mem a ha'))
      (f acc a) (hf acc a (List.mem_cons_self a as) h)

/-- Every entry of the blit log is a clipped in-bitmap source row: its
destination row is `atlasY + y + y_offset` for some `y ∈ [0, rows)` with
`y_offset + y ≥ 0`, recorded together with the current height. -/
theorem blitGlyph_writes_shape (width hgt ax ay y_offset : Int) (g : GlyphBitmap)
    (img0 : Int → Nat) :
    ∀ w ∈ (blitGlyph width hgt ax ay y_offset g img0).2,
      ∃ y : Int, 0 ≤ y ∧ y < (g.rows.toNat : Int) ∧ 0 ≤ y_offset + y ∧
        w.row = ay + y + y_offset ∧ w.hgt = hgt := by
  unfold blitGlyph
  refine foldl_writes_pres _ _ (List.range g.rows.toNat) ?_ (img0, []) (by simp)
  intro acc y hy hacc
  refine foldl_writes_pres _ _ (List.range g.width.toNat) ?_ acc hacc
  intro acc2 x hx hacc2 w hw
  by_cases hclip : 0 ≤ y_offset + Int.ofNat y
  · rw [if_pos hclip] at hw
    rcases List.mem_cons.mp hw with hw1 | hw2
    · subst hw1
      refine ⟨Int.ofNat y, Int.ofNat_nonneg y, ?_, hclip, rfl, rfl⟩
      exact Int.ofNat_lt.mpr (List.mem_range.mp hy)
    · exact hacc2 w hw2
  · rw [if_neg hclip] at hw
    exact hacc2 w hw

/-- Sanity range for the metrics a loop state may carry (far wider than any
realistic pixel size; rules out `uint32` wraparound in the checks). -/
def MetricsBounded (m : FontMetrics) : Prop :=
  0 ≤ m.internal_leading ∧ m.internal_leading ≤ 16777216 ∧
  0 ≤ m.ascender ∧ m.ascender ≤ 16777216 ∧
  -16777216 ≤ m.descender ∧ m.descender ≤ 0 ∧
  -16777216 ≤ m.external_leading ∧ m.external_leading ≤ 0 ∧
  0 ≤ m.base_line ∧ m.base_line ≤ 67108864

/-- Sanity range for a rasterized glyph. -/
def GlyphBounded (g : GlyphBitmap) : Prop :=
  0 ≤ g.rows ∧ g.rows ≤ 16777216 ∧ -16777216 ≤ g.bitmap_top ∧ g.bitmap_top ≤ 16777216

instance (m : FontMetrics) : Decidable (MetricsBounded m) := by
  unfold MetricsBounded
  infer_instance

instance (g : GlyphBitmap) : Decidable (GlyphBounded g) := by
  unfold GlyphBounded
  infer_instance

/-- Numeric range of the refined metrics. -/
theorem stepMetrics_bounds (s : LoopState) (g : GlyphBitmap)
    (hm : MetricsBounded s.metrics) (hg : GlyphBounded g) :
    0 ≤ (stepMetrics s g).base_line ∧ (stepMetrics s g).base_line ≤ 67108864 ∧
    (stepMetrics s g).total ≤ 134217728 := by
  obtain ⟨h1, h2, h3, h4, h5, h6, h7, h8, h9, h10⟩ := hm
  obtain ⟨g1, g2, g3, g4⟩ := hg
  unfold stepMetrics refineMetrics
  split
  · unfold FontMetrics.total
    dsimp only
    omega
  · unfold FontMetrics.total
    omega

/-- Numeric range of the tracked height after the conditional expansion. -/
theorem stepHeight_bounds (env : FontEnv) (width : Int) (s : LoopState)
    (g : GlyphBitmap) (hm : MetricsBounded s.metrics) (hg : GlyphBounded g)
    (hh0 : 0 < s.height) (hh1 : s.height ≤ 268435456) :
    0 < stepHeight env width s g ∧ stepHeight env width s g ≤ 268435456 := by
  unfold stepHeight
  by_cases hpr : (ExpandBuffer width s.height s.metrics (stepMetrics s g) s.image
      env.garbage).1 = true
  · rw [if_pos hpr]
    refine ⟨RoundUpToPowerOf2_pos _, ?_⟩
    have htot := (stepMetrics_bounds s g hm hg).2.2
    have := RoundUpToPowerOf2_le_pow (stepMetrics s g).total 28 (by norm_num; omega)
    omega
  · rw [if_neg hpr]
    exact ⟨hh0, hh1⟩

/-- Numeric range of the pen's vertical position after the wrap test. -/
theorem stepPen_bounds (ysize width : Int) (s : LoopState) (g : GlyphBitmap)
    (hay0 : 0 ≤ s.atlasY) (hay1 : s.atlasY + ysize ≤ 268435456) (hys : 0 ≤ ysize) :
    0 ≤ (stepPen ysize width s g).2 ∧ (stepPen ysize width s g).2 ≤ 268435456 := by
  unfold stepPen
  split
  · simp only [kGlyphPadding, add_zero]
    rw [u32_eq_self _ (by omega) (by omega)]
    omega
  · dsimp only
    omega

/-- C5 (amended): every blit store performed by a loop iteration whose state
and glyph are within `uint32`-safe ranges lands in a row of `[0, height)`
(the height at the time of the store); the column half of the original claim
is refuted separately.  (`Option.getD` keeps prior writes on early exits.) -/
theorem GlyphStep_blit_rows (env : FontEnv) (ysize width : Int) (s : LoopState)
    (sg : ShapedGlyph)
    (hay0 : 0 ≤ s.atlasY) (hay1 : s.atlasY + ysize ≤ 268435456) (hys : 0 ≤ ysize)
    (hh0 : 0 < s.height) (hh1 : s.height ≤ 268435456)
    (hm : MetricsBounded s.metrics)
    (hgb : ∀ g ∈ env.loadGlyph ysize sg.codepoint, GlyphBounded g) :
    ∀ w ∈ ((GlyphStep env ysize width s sg).getD s).writes,
      w ∈ s.writes ∨ (0 ≤ w.row ∧ w.row < w.hgt) := by
  unfold GlyphStep
  cases hload : env.loadGlyph ysize sg.codepoint with
  | none =>
    intro w hw
    exact Or.inl hw
  | some g =>
    have hgb' : GlyphBounded g := hgb g (by rw [Option.mem_def]; exact hload)
    simp only [Option.some_bind]
    unfold GlyphStepCore
    by_cases hc : u32 ((stepPen ysize width s g).2 + (stepMetrics s g).base_line +
        g.rows - g.bitmap_top) ≥
        u32 (stepHeight env width s g - kGlyphPadding)
    · rw [if_pos hc]
      intro w hw
      exact Or.inl hw
    · rw [if_neg hc]
      intro w hw
      simp only [Option.getD_some] at hw
      rcases List.mem_append.mp hw with hnew | hold
      · right
        obtain ⟨y, hy0, hyr, hclip, hrow, hhgt⟩ :=
          blitGlyph_writes_shape width (stepHeight env width s g)
            (stepPen ysize width s g).1 (stepPen ysize width s g).2
            ((stepMetrics s g).base_line - g.bitmap_top) g
            (ExpandBuffer width s.height s.metrics (stepMetrics s g) s.image
              env.garbage).2 w hnew
        obtain ⟨hp0, hp1⟩ := stepPen_bounds ysize width s g hay0 hay1 hys
        obtain ⟨hb0, hb1, _⟩ := stepMetrics_bounds s g hm hgb'
        obtain ⟨hsh0, hsh1⟩ := stepHeight_bounds env width s g hm hgb' hh0 hh1
        obtain ⟨g1, g2, g3, g4⟩ := hgb'
        have hkg : stepHeight env width s g - kGlyphPadding =
            stepHeight env width s g := by
          simp [kGlyphPadding]
        rw [hkg] at hc
        push_neg at hc
        rw [u32_eq_self (stepHeight env width s g) hsh0.le (by omega)] at hc
        have hyr' : y < g.rows := by
          have hcast : ((g.rows.toNat : Int)) = g.rows := Int.toNat_of_nonneg g1
          omega
        have hvnn : 0 ≤ (stepPen ysize width s g).2 + (stepMetrics s g).base_line +
            g.rows - g.bitmap_top := by
          by_contra hneg
          push_neg at hneg
          have hwrap := u32_neg_large ((stepPen ysize width s g).2 +
            (stepMetrics s g).base_line + g.rows - g.bitmap_top) (by omega) hneg
          omega
        rw [u32_eq_self ((stepPen ysize width s g).2 + (stepMetrics s g).base_line +
          g.rows - g.bitmap_top) hvnn (by omega)] at hc
        rw [hrow, hhgt]
        omega
      · exact Or.inl hold

/-- Witness for `GlyphStep_blit_rows` at a concrete loop step. -/
theorem GlyphStep_blit_rows_witness :
    MetricsBounded (⟨3, 0, 3, -1, 0⟩ : FontMetrics) ∧
    ∀ w ∈ ((GlyphStep envOneGlyph 4 4 ⟨⟨3, 0, 3, -1, 0⟩, 4, 0, 0, fun _ => 0, []⟩
        ⟨1, 256, 0⟩).getD ⟨⟨3, 0, 3, -1, 0⟩, 4, 0, 0, fun _ => 0, []⟩).writes,
      w ∈ (⟨⟨3, 0, 3, -1, 0⟩, 4, 0, 0, fun _ => 0, []⟩ : LoopState).writes ∨
        (0 ≤ w.row ∧ w.row < w.hgt) :=
  ⟨by decide,
    GlyphStep_blit_rows envOneGlyph 4 4 ⟨⟨3, 0, 3, -1, 0⟩, 4, 0, 0, fun _ => 0, []⟩
      ⟨1, 256, 0⟩ (by decide) (by decide) (by decide) (by decide) (by decide)
      (by decide)
      (by intro g hg; rw [Option.mem_def] at hg; simp [envOneGlyph] at hg;
          rw [← hg]; decide)⟩

/-- C5 counterexample: at a concrete successful `GetTexture` run with a glyph
whose `bitmap_left = -1` blitted at the start of a row, a clipped store has
destination column `atlasX + x + bitmap_left = -1 ∉ [0, width)`, and its
`uint32` flat index (4294967295) lies far outside the `width × height`
plane. -/
theorem GetTexture_blit_escapes_plane :
    ((GetTexture envOneGlyph mgr0 [65] 4).1.map
      (fun t => t.writes.all (fun w => decide (0 ≤ w.col) && decide (w.col < t.width))))
      = some false ∧
    ((GetTexture envOneGlyph mgr0 [65] 4).1.map
      (fun t => t.writes.all (fun w => decide (w.idx < t.width * t.height))))
      = some false := by
  exact ⟨by decide, by decide⟩

/-- Open-environment where `FT_New_Memory_Face` fails after a successful file
load. -/
def envFaceFail : OpenEnv := ⟨some [1, 2, 3], fun _ => none, fun _ => some 0⟩

/-- Open-environment where `hb_ft_font_create` (shaper pairing) fails. -/
def envPairFail : OpenEnv := ⟨some [1, 2, 3], fun _ => some 5, fun _ => none⟩

/-- The handle before any `Open`. -/
def handle0 : FontHandle := ⟨[], none, none, false⟩

/-- C8 counterexample: when face creation fails, `Open` returns `false` but
the loaded font bytes are **retained** in `font_data_` — the early return at
`font_manager.cpp:283` does not release them (contrast the shaper-pairing
failure path, which does `font_data_.clear()`). -/
theorem Open_face_failure_retains_bytes :
    (Open envFaceFail handle0).1 = false ∧
    (Open envFaceFail handle0).2.font_data = [1, 2, 3] ∧
    (Open envFaceFail handle0).2.font_data ≠ [] := by
  exact ⟨by decide, by decide, by decide⟩

/-- C8 (amended): on every failure path `Open` returns `false`, the handle
stays uninitialized (`face_initialized_` unchanged), and no shaping font is
created; the font bytes are released and the face destroyed on the
shaper-pairing failure path — but on the face-creation failure path the
loaded bytes are retained. -/
theorem Open_failure_state (env : OpenEnv) (s : FontHandle)
    (hfail : (Open env s).1 = false) :
    (Open env s).2.face_initialized = s.face_initialized ∧
    (Open env s).2.harfbuzz_font = s.harfbuzz_font ∧
    (∀ bytes f, env.loadFile = some bytes → env.newMemoryFace bytes = some f →
      (Open env s).2.font_data = [] ∧ (Open env s).2.face = none) := by
  cases hl : env.loadFile with
  | none =>
    have hred : Open env s = (false, s) := by unfold Open; rw [hl]
    rw [hred]
    exact ⟨rfl, rfl, fun bytes f hb => by cases hb⟩
  | some bytes =>
    have hred : Open env s = OpenFace env s bytes := by unfold Open; rw [hl]
    rw [hred] at hfail ⊢
    cases hf : env.newMemoryFace bytes with
    | none =>
      have hred2 : OpenFace env s bytes =
          (false, ⟨bytes, s.face, s.harfbuzz_font, s.face_initialized⟩) := by
        unfold OpenFace; rw [hf]
      rw [hred2]
      refine ⟨rfl, rfl, fun bytes' f hb hf' => ?_⟩
      cases hb
      rw [hf] at hf'
      cases hf'
    | some face =>
      have hred2 : OpenFace env s bytes = OpenPair env s bytes face := by
        unfold OpenFace; rw [hf]
      rw [hred2] at hfail ⊢
      cases hp : env.hbFtFontCreate face with
      | none =>
        have hred3 : OpenPair env s bytes face =
            (false, ⟨[], none, s.harfbuzz_font, s.face_initialized⟩) := by
          unfold OpenPair; rw [hp]
        rw [hred3]
        exact ⟨rfl, rfl, fun bytes' f hb hf' => ⟨rfl, rfl⟩⟩
      | some hbf =>
        have hred3 : OpenPair env s bytes face =
            (true, ⟨bytes, some face, some hbf, true⟩) := by
          unfold OpenPair; rw [hp]
        rw [hred3] at hfail
        cases hfail

/-- Witness for `Open_failure_state` on the shaper-pairing failure path. -/
theorem Open_failure_state_witness :
    (Open envPairFail handle0).1 = false ∧
    (Open envPairFail handle0).2.face_initialized = handle0.face_initialized :=
  ⟨by decide, (Open_failure_state envPairFail handle0 (by decide)).1⟩
